/-
  Verification of the IDW interpolation microservice core
  (src/idw_2.js and the unnamed fine-grained variant src/unnamed/part_000,
  which is idw.js).

  Shallow embedding conventions:
  * JS numbers in the geometric pipeline are modelled as real numbers `ℝ`
    (the code relies on transcendental functions: log, tan, atan, exp,
    sin, cos, sqrt, atan2).
  * Gradient stop positions are rationals `ℚ` and colours are integer
    RGB triples, keeping the gradient builder executable.
  * `NaN` propagation is modelled with `Option`: the only `NaN` source in
    the engine is the division `numerator / denominator` with an empty
    point list (0/0); `Option.map` then mirrors `Math.min(NaN, m) = NaN`
    and `Math.round(NaN) = NaN`, and an out-of-range / `NaN` array index
    yields `undefined`, whose member access throws a `TypeError`
    (modelled with `Except`).
  * `minDist` starts at `Infinity` in the source; it is modelled as
    `Option ℝ` with `none` for `Infinity` (it stays `none` exactly when
    the point list is empty).
-/
import Mathlib

open Real

namespace Idw

/-- A colour as produced by `tinycolor(...).toRgb()`: an integer RGB
triple (each component in [0,255] for well-formed colour inputs). -/
abbrev Color := ℤ × ℤ × ℤ

/-- `Math.round` in JavaScript: round half toward positive infinity,
`Math.round x = ⌊x + 1/2⌋`.  Polymorphic so it can be used both on the
rational gradient arithmetic and the real engine arithmetic. -/
def jsRound {α : Type} [LinearOrderedField α] [FloorRing α] (x : α) : ℤ :=
  ⌊x + 1 / 2⌋

/-- `Array.prototype.findIndex (s => t <= s)` on the stop list, except
that a failed search is reported as `stops.length` instead of `-1`
(the caller immediately rewrites the failure case). -/
def findStopIdx (t : ℚ) (stops : List ℚ) : ℕ :=
  match stops with
  | [] => 0
  | s :: rest => if t ≤ s then 0 else findStopIdx t rest + 1

/-- One entry of the gradient lookup table (loop body of
`createGradientLookup`, src/idw_2.js lines 14-32): `t = i/255`; find the
first stop with `t ≤ s` (last stop if none); the first stop's colour is
used verbatim, otherwise the two neighbouring stops are interpolated
with factor `f = (t - s0)/(s1 - s0)`. -/
def lookupEntry (stops : List ℚ) (colors : List Color) (i : ℕ) : Color :=
  let t : ℚ := i / 255
  let i0 := findStopIdx t stops
  let idx := if i0 = stops.length then stops.length - 1 else i0
  if idx = 0 then
    ((colors.getD 0 (0, 0, 0)).1,
     (colors.getD 0 (0, 0, 0)).2.1,
     (colors.getD 0 (0, 0, 0)).2.2)
  else
    let s0 := stops.getD (idx - 1) 0
    let s1 := stops.getD idx 0
    let c0 := colors.getD (idx - 1) (0, 0, 0)
    let c1 := colors.getD idx (0, 0, 0)
    let f := (t - s0) / (s1 - s0)
    (jsRound ((c0.1 : ℚ) + (c1.1 - c0.1) * f),
     jsRound ((c0.2.1 : ℚ) + (c1.2.1 - c0.2.1) * f),
     jsRound ((c0.2.2 : ℚ) + (c1.2.2 - c0.2.2) * f))

/-- `createGradientLookup` (src/idw_2.js lines 7-34, textually identical
in src/unnamed/part_000 lines 59-86).  The input gradient object is
modelled as an association list of (stop position, parsed colour); the
source sorts the stop keys ascending with a numeric comparator
(`Object.keys(gradient).map(Number).sort((a,b) => a-b)`), modelled by a
stable insertion sort on the key.  The 256 iterations of the `for` loop
are the map over `List.range 256`. -/
def createGradientLookup (gradient : List (ℚ × Color)) : List Color :=
  let sorted := gradient.insertionSort (fun a b => a.1 ≤ b.1)
  let stops := sorted.map (·.1)
  let colors := sorted.map (·.2)
  (List.range 256).map (lookupEntry stops colors)

/-- All three components of a colour lie in the byte range [0, 255]. -/
def InRange (c : Color) : Prop :=
  0 ≤ c.1 ∧ c.1 ≤ 255 ∧ 0 ≤ c.2.1 ∧ c.2.1 ≤ 255 ∧ 0 ≤ c.2.2 ∧ c.2.2 ≤ 255

instance : DecidablePred InRange := fun c => by
  unfold InRange
  infer_instance

/-- A two-stop gradient, black at position 0 and white at position 1/2:
all stop positions lie in [0,1]. -/
def demoGradHalf : List (ℚ × Color) := [(0, (0, 0, 0)), (1 / 2, (255, 255, 255))]

/-- A two-stop gradient, black at 0 and white at 1: the highest stop is 1. -/
def demoGradFull : List (ℚ × Color) := [(0, (0, 0, 0)), (1, (255, 255, 255))]

/-- Geographic bounding box `{minLat, minLng, maxLat, maxLng}`. -/
structure Bounds where
  minLat : ℝ
  minLng : ℝ
  maxLat : ℝ
  maxLng : ℝ

/-- A latitude/longitude pair (degrees). -/
structure LatLng where
  lat : ℝ
  lng : ℝ

/-- `latToMerc` (src/idw_2.js lines 36-39, identical in part_000):
`merc(lat) = ln(tan(π/4 + rad/2))` with `rad = lat·π/180`. -/
noncomputable def latToMerc (lat : ℝ) : ℝ :=
  Real.log (Real.tan (π / 4 + lat * π / 180 / 2))

/-- `mercToLat` (src/idw_2.js lines 40-42):
`lat = (2·atan(exp(mercY)) − π/2)·180/π`. -/
noncomputable def mercToLat (mercY : ℝ) : ℝ :=
  (2 * Real.arctan (Real.exp mercY) - π / 2) * (180 / π)

/-- `pixelToLatLng` (src/idw_2.js lines 44-56, identical in part_000
lines 105-123): linear in longitude, Web-Mercator interpolation in
latitude, with `tY = y/height` and
`mercY = minMerc + tY·(maxMerc − minMerc)`. -/
noncomputable def pixelToLatLng (x y width height : ℝ) (bounds : Bounds) : LatLng :=
  let minMerc := latToMerc bounds.minLat
  let maxMerc := latToMerc bounds.maxLat
  let tY := y / height
  let mercY := minMerc + tY * (maxMerc - minMerc)
  let lat := mercToLat mercY
  let tX := x / width
  let lng := bounds.minLng + tX * (bounds.maxLng - bounds.minLng)
  ⟨lat, lng⟩

/-- The concrete bounding box used in the counterexamples:
minLat = 0, maxLat = 10 (with minLat < maxLat). -/
noncomputable def demoBounds : Bounds := ⟨0, 0, 10, 10⟩

/-- JavaScript's `Math.atan2(y, x)` (two-argument arctangent). -/
noncomputable def jsAtan2 (y x : ℝ) : ℝ :=
  if 0 < x then Real.arctan (y / x)
  else if x < 0 then
    (if 0 ≤ y then Real.arctan (y / x) + π else Real.arctan (y / x) - π)
  else
    (if 0 < y then π / 2 else if y < 0 then -(π / 2) else 0)

/-- `haversine` (src/idw_2.js lines 58-69, textually identical in
part_000 lines 125-137): great-circle distance in metres with Earth
radius 6371000.  `Math.sqrt` of a negative argument is NaN in JS while
`Real.sqrt` is 0 there; `aVal < 0` requires a latitude beyond ±90°,
which no claim involves. -/
noncomputable def haversine (a b : LatLng) : ℝ :=
  let R : ℝ := 6371000
  let dLat := (b.lat - a.lat) * π / 180
  let dLng := (b.lng - a.lng) * π / 180
  let lat1 := a.lat * π / 180
  let lat2 := b.lat * π / 180
  let aVal := Real.sin (dLat / 2) ^ 2 +
    Real.cos lat1 * Real.cos lat2 * Real.sin (dLng / 2) ^ 2
  R * 2 * jsAtan2 (Real.sqrt aVal) (Real.sqrt (1 - aVal))

/-- A sample point `[lat, lng, value]`. -/
abbrev Point := ℝ × ℝ × ℝ

/-- The per-point loop of the direct-draw engine (src/idw_2.js lines
117-127): for each point, the haversine distance to the cell's latlng,
the running `minDist` (starting at `Infinity`, modelled `none`), and the
`numerator`/`denominator` sums with
`dist2 = Math.pow(dist, exp) || 1e-6` — the `||` fallback fires only
when `dist^exp` is exactly `0`.  The loop body is textually identical in
part_000 lines 28-35 (which ignores `minDist`). -/
noncomputable def cellAccumAux (ll : LatLng) (e : ℕ) :
    List Point → ℝ × ℝ × Option ℝ → ℝ × ℝ × Option ℝ
  | [], acc => acc
  | pt :: rest, acc =>
    let dist := haversine ll ⟨pt.1, pt.2.1⟩
    let dist2 := if dist ^ e = 0 then 1e-6 else dist ^ e
    cellAccumAux ll e rest
      (acc.1 + pt.2.2 / dist2, acc.2.1 + 1 / dist2,
        some (match acc.2.2 with
              | none => dist
              | some m => min m dist))

/-- The loop starts from `numerator = 0`, `denominator = 0`,
`minDist = Infinity`. -/
noncomputable def cellAccum (points : List Point) (ll : LatLng) (e : ℕ) :
    ℝ × ℝ × Option ℝ :=
  cellAccumAux ll e points (0, 0, none)

/-- `interpolVal = numerator / denominator` (line 128).  With an empty
point list both sums are 0 and JS computes `0/0 = NaN`, modelled as
`none`; with at least one point the denominator is a sum of strictly
positive weights. -/
noncomputable def interpolValOf (points : List Point) (ll : LatLng) (e : ℕ) : Option ℝ :=
  let acc := cellAccum points ll e
  if acc.2.1 = 0 then none else some (acc.1 / acc.2.1)

/-- The minimum distance from the cell to any sample (`Infinity`/`none`
when there are no samples). -/
noncomputable def minDistOf (points : List Point) (ll : LatLng) (e : ℕ) : Option ℝ :=
  (cellAccum points ll e).2.2

/-- `const FADE_DISTANCE = 100000` (line 104). -/
noncomputable def FADE_DISTANCE : ℝ := 100000

/-- Feathering alpha (lines 140-143): 1 unless `minDist > FADE_DISTANCE`,
then `max(0, 1 − (minDist − FADE_DISTANCE)/FADE_DISTANCE)`.  For
`minDist = Infinity` (no points) JS evaluates `max(0, 1 − ∞) = 0`. -/
noncomputable def alphaOf (minDist : Option ℝ) : ℝ :=
  match minDist with
  | none => 0
  | some d =>
    if d > FADE_DISTANCE then max 0 (1 - (d - FADE_DISTANCE) / FADE_DISTANCE) else 1

/-- Gradient index (lines 131-137): `0` when `max === 0` (even for a NaN
value), otherwise `Math.round((interpolVal/max)·255)`, with NaN
propagating.  No clamping is performed. -/
noncomputable def gradientIndexOf (v : Option ℝ) (maxv : ℝ) : Option ℤ :=
  if maxv = 0 then some 0 else v.map (fun x => jsRound (x / maxv * 255))

/-- JS array indexing `grad[i]`: `undefined` (`none`) when the index is
out of bounds or NaN. -/
def jsIndex (l : List Color) (i : Option ℤ) : Option Color :=
  i.bind (fun k =>
    if h : 0 ≤ k ∧ k.toNat < l.length then some (l.get ⟨k.toNat, h.2⟩) else none)

/-- An uncaught JavaScript runtime exception (here: the `TypeError`
thrown by reading a component of `undefined`). -/
inductive JsError where
  | typeError
  deriving DecidableEq

/-- An RGBA pixel before the byte-coercion of the buffer write. -/
abbrev Pixel := ℤ × ℤ × ℤ × ℤ

/-- Feathering blend toward the background colour (lines 145-149). -/
noncomputable def blend (ic bg : Color) (alpha : ℝ) : Color :=
  (jsRound ((ic.1 : ℝ) * alpha + (bg.1 : ℝ) * (1 - alpha)),
   jsRound ((ic.2.1 : ℝ) * alpha + (bg.2.1 : ℝ) * (1 - alpha)),
   jsRound ((ic.2.2 : ℝ) * alpha + (bg.2.2 : ℝ) * (1 - alpha)))

/-- The whole per-cell computation of the direct-draw engine (lines
117-161): value, clamp to `max`, gradient index, feathering alpha,
lookup (a `TypeError` is thrown when `grad[gradientIndex]` is
`undefined`), blend, and the RGBA pixel written to every pixel of the
cell (alpha channel `Math.round(255·alpha)`). -/
noncomputable def computeCell (points : List Point) (e : ℕ) (maxv : ℝ)
    (grad : List Color) (bg : Color) (ll : LatLng) : Except JsError Pixel :=
  let v := interpolValOf points ll e
  let vc := v.map (fun x => min x maxv)
  let idx := gradientIndexOf vc maxv
  let alpha := alphaOf (minDistOf points ll e)
  match jsIndex grad idx with
  | none => .error .typeError
  | some ic =>
    let c := blend ic bg alpha
    .ok (c.1, c.2.1, c.2.2, jsRound (255 * alpha))

/-- The per-point weight actually used by the code:
`1 / (Math.pow(dist, exp) || 1e-6)`. -/
noncomputable def codeWeight (d : ℝ) (e : ℕ) : ℝ :=
  1 / (if d ^ e = 0 then 1e-6 else d ^ e)

/-- Modelled from the spec: the weight the claim asserts,
`1 / max(distance^exp, 1e-6)`. -/
noncomputable def specWeight (d : ℝ) (e : ℕ) : ℝ :=
  1 / max (d ^ e) 1e-6

/-- Modelled from the spec: the claim's interpolation formula
`Σ(pointValue·w) / Σ(w)` with `w = 1/max(distance^exp, 1e-6)`. -/
noncomputable def specIDWValue (points : List Point) (ll : LatLng) (e : ℕ) : ℝ :=
  (points.map (fun pt => pt.2.2 * specWeight (haversine ll ⟨pt.1, pt.2.1⟩) e)).sum /
    (points.map (fun pt => specWeight (haversine ll ⟨pt.1, pt.2.1⟩) e)).sum

/-- The engines' option object.  `maxVal` is the source's `max` field
(renamed: `max` collides with the Lean function); `cellSize`, `maxVal`
and `exp` are optional, matching the JS destructuring defaults. -/
structure Options where
  width : ℕ
  height : ℕ
  cellSize : Option ℕ
  maxVal : Option ℝ
  gradient : List (ℚ × Color)
  bounds : Bounds
  exp : Option ℕ

/-- The raw RGBA pixel buffer.  `png.data` holds 4 bytes per pixel at
offset `(py·width + px)·4`; we model it as one 4-tuple per pixel at
index `py·width + px`. -/
abbrev Buffer := List Pixel

/-- A Node `Buffer` write coerces the value to a byte (modulo 256,
`Int.emod` giving the representative in [0,256)). -/
def wrapPixel (p : Pixel) : Pixel :=
  (p.1 % 256, p.2.1 % 256, p.2.2.1 % 256, p.2.2.2 % 256)

/-- Apply a list of (index, pixel) writes left to right. -/
def applyWrites (buf : Buffer) (ws : List (ℕ × Pixel)) : Buffer :=
  ws.foldl (fun b w => b.set w.1 w.2) buf

/-- The pixel writes of one cell (fill loops, src/idw_2.js lines
152-164, part_000 lines 40-52): positions `(x+dx, y+dy)` for
`dy, dx ∈ [0, r)` (dy outer), clipped to the image bounds. -/
def cellWrites (width height r i j : ℕ) (pix : Pixel) : List (ℕ × Pixel) :=
  (List.range r).flatMap (fun dy =>
    (List.range r).filterMap (fun dx =>
      if j * r + dx < width ∧ i * r + dy < height then
        some ((i * r + dy) * width + (j * r + dx), pix)
      else none))

/-- Row-major cell indices: both engines run the row loop outermost.
The strided loop `for (y = 0; y < height; y += r)` (and the count loop
`for (i = 0; i < Math.ceil(height/r); i++)` with `y = i*r`) visit
exactly the multiples of `r` below `height`, i.e. `i < ⌈height/r⌉`. -/
def cellList (nCellY nCellX : ℕ) : List (ℕ × ℕ) :=
  (List.range nCellY).flatMap (fun i => (List.range nCellX).map (fun j => (i, j)))

/-- The shared shape of both engines' cell loop: per cell, run the cell
computation (an uncaught exception aborts the whole call) and apply the
cell's pixel writes to the buffer. -/
noncomputable def engineFold (cc : ℕ × ℕ → Except JsError Pixel)
    (W : ℕ × ℕ → Pixel → List (ℕ × Pixel)) :
    List (ℕ × ℕ) → Buffer → Except JsError Buffer
  | [], buf => .ok buf
  | c :: cs, buf =>
    match cc c with
    | .error er => .error er
    | .ok pix => engineFold cc W cs (applyWrites buf (W c pix))

/-- `interpolateIDW_directdraw` (src/idw_2.js lines 71-168): prefill
with the background colour `grad[0]` at alpha 1, then per cell compute
and fill.  `Math.ceil(width/r)` is `(width + r − 1)/r` in ℕ (the data
model requires `cellSize ≥ 1`).  The final PNG encoding step is the
external image codec; the engine is modelled up to the raw buffer. -/
noncomputable def interpolateIDW_directdraw (points : List Point) (opts : Options) :
    Except JsError Buffer :=
  let r := opts.cellSize.getD 10
  let maxv := opts.maxVal.getD 1
  let e := opts.exp.getD 2
  let grad := createGradientLookup opts.gradient
  let bg := grad.headD (0, 0, 0)
  let init := List.replicate (opts.width * opts.height)
    (wrapPixel (bg.1, bg.2.1, bg.2.2, jsRound (255 * (1 : ℝ))))
  let nCellX := (opts.width + r - 1) / r
  let nCellY := (opts.height + r - 1) / r
  engineFold
    (fun ij => computeCell points e maxv grad bg
      (pixelToLatLng ((ij.2 * r : ℕ) + (r : ℝ) / 2) ((ij.1 * r : ℕ) + (r : ℝ) / 2)
        opts.width opts.height opts.bounds))
    (fun ij pix => cellWrites opts.width opts.height r ij.1 ij.2 (wrapPixel pix))
    (cellList nCellY nCellX) init

/-- The per-cell computation of the fine-grained engine
(src/unnamed/part_000 lines 26-49): same value and index arithmetic but
no `max === 0` guard, no feathering, and output alpha always 255.
(`exp` is read per point inside the loop there; it is the same value on
every iteration.) -/
noncomputable def computeCellPlain (points : List Point) (e : ℕ) (maxv : ℝ)
    (grad : List Color) (ll : LatLng) : Except JsError Pixel :=
  let v := interpolValOf points ll e
  let vc := v.map (fun x => min x maxv)
  let idx := vc.map (fun x => jsRound (x / maxv * 255))
  match jsIndex grad idx with
  | none => .error .typeError
  | some c => .ok (c.1, c.2.1, c.2.2, 255)

/-- `interpolateIDW` (src/unnamed/part_000 lines 12-56): no prefill (a
fresh PNG buffer is zero-filled), `cellSize` defaults to 1, and
`options.exp || 2` also replaces an explicit 0 by 2. -/
noncomputable def interpolateIDW (points : List Point) (opts : Options) :
    Except JsError Buffer :=
  let r := opts.cellSize.getD 1
  let maxv := opts.maxVal.getD 1
  let e := match opts.exp with
           | none => 2
           | some k => if k = 0 then 2 else k
  let grad := createGradientLookup opts.gradient
  let init : Buffer := List.replicate (opts.width * opts.height) (0, 0, 0, 0)
  let nCellX := (opts.width + r - 1) / r
  let nCellY := (opts.height + r - 1) / r
  engineFold
    (fun ij => computeCellPlain points e maxv grad
      (pixelToLatLng ((ij.2 * r : ℕ) + (r : ℝ) / 2) ((ij.1 * r : ℕ) + (r : ℝ) / 2)
        opts.width opts.height opts.bounds))
    (fun ij pix => cellWrites opts.width opts.height r ij.1 ij.2 (wrapPixel pix))
    (cellList nCellY nCellX) init

/-- A minimal 1×1 request: default `cellSize`, `max`, `exp`; two-stop
gradient; the demo bounding box. -/
noncomputable def demoOpts : Options :=
  ⟨1, 1, none, none, demoGradFull, demoBounds, none⟩

/-- Per-cell results and writes collected left to right; the first
cell-computation exception aborts the whole collection. -/
noncomputable def collectWrites (cc : ℕ × ℕ → Except JsError Pixel)
    (W : ℕ × ℕ → Pixel → List (ℕ × Pixel)) :
    List (ℕ × ℕ) → Except JsError (List (ℕ × Pixel))
  | [] => .ok []
  | c :: cs =>
    match cc c with
    | .error er => .error er
    | .ok pix =>
      match collectWrites cc W cs with
      | .error er => .error er
      | .ok ws => .ok (W c pix ++ ws)

/-- 1×1 request with `cellSize = 1`, `max = 1`, `exp = 2` supplied. -/
noncomputable def witnessOpts : Options :=
  ⟨1, 1, some 1, some 1, demoGradFull, demoBounds, some 2⟩

/-- The latitude/longitude of the single cell's centre under
`witnessOpts`. -/
noncomputable def witnessLL : LatLng :=
  pixelToLatLng (((0 * 1 : ℕ) : ℝ) + ((1 : ℕ) : ℝ) / 2)
    (((0 * 1 : ℕ) : ℝ) + ((1 : ℕ) : ℝ) / 2)
    ((1 : ℕ) : ℝ) ((1 : ℕ) : ℝ) demoBounds

/-- One sample, sitting exactly at the cell centre, value 5. -/
noncomputable def witnessPoints : List Point := [(witnessLL.lat, witnessLL.lng, 5)]

variable {α : Type} [LinearOrderedField α] [FloorRing α]

lemma findStopIdx_le (t : ℚ) (stops : List ℚ) : findStopIdx t stops ≤ stops.length := by
  induction stops with
  | nil => simp [findStopIdx]
  | cons s rest ih =>
    simp only [findStopIdx, List.length_cons]
    split
    · omega
    · omega

lemma findStopIdx_lt_of_mem {t : ℚ} {stops : List ℚ} (h : ∃ s ∈ stops, t ≤ s) :
    findStopIdx t stops < stops.length := by
  induction stops with
  | nil => simp at h
  | cons s rest ih =>
    simp only [findStopIdx, List.length_cons]
    split
    · omega
    · rename_i hns
      rcases h with ⟨x, hx, htx⟩
      rcases List.mem_cons.mp hx with rfl | hx'
      · exact absurd htx hns
      · have := ih ⟨x, hx', htx⟩
        omega

lemma findStopIdx_spec {t : ℚ} {stops : List ℚ}
    (h : findStopIdx t stops < stops.length) :
    t ≤ stops.getD (findStopIdx t stops) 0 := by
  induction stops with
  | nil => simp at h
  | cons s rest ih =>
    simp only [findStopIdx] at h ⊢
    split at h
    · rename_i hts
      simp [findStopIdx, *]
    · rename_i hns
      simp only [List.length_cons] at h
      have h' : findStopIdx t rest < rest.length := by omega
      simpa [findStopIdx, hns] using ih h'

lemma findStopIdx_prev_lt {t : ℚ} {stops : List ℚ} {k : ℕ}
    (hk : k < findStopIdx t stops) : stops.getD k 0 < t := by
  induction stops generalizing k with
  | nil => simp [findStopIdx] at hk
  | cons s rest ih =>
    simp only [findStopIdx] at hk
    split at hk
    · omega
    · rename_i hns
      match k with
      | 0 => simpa using lt_of_not_le hns
      | k + 1 =>
        simp only [List.getD_cons_succ]
        exact ih (by omega)

lemma jsRound_intCast (c : ℤ) : jsRound ((c : α)) = c := by
  rw [jsRound, Int.floor_eq_iff]
  constructor <;> [norm_num; norm_num]

lemma jsRound_bounds (a b : ℤ) (x : α) (h1 : (a : α) ≤ x) (h2 : x ≤ (b : α)) :
    a ≤ jsRound x ∧ jsRound x ≤ b := by
  constructor
  · rw [jsRound, Int.le_floor]
    have : (0:α) ≤ 1/2 := by norm_num
    linarith
  · have : jsRound x < b + 1 := by
      rw [jsRound, Int.floor_lt]
      push_cast
      linarith
    omega

lemma convex_between (a b f : ℚ) (hf0 : 0 ≤ f) (hf1 : f ≤ 1)
    (ha : 0 ≤ a) (hb : 0 ≤ b) (ha' : a ≤ 255) (hb' : b ≤ 255) :
    0 ≤ a + (b - a) * f ∧ a + (b - a) * f ≤ 255 := by
  constructor <;> nlinarith

lemma findStopIdx_eq_of {t : ℚ} {stops : List ℚ} {n : ℕ}
    (hn : n < stops.length)
    (hprev : ∀ k < n, stops.getD k 0 < t)
    (hcur : t ≤ stops.getD n 0) :
    findStopIdx t stops = n := by
  have hlt : findStopIdx t stops < stops.length := by
    refine findStopIdx_lt_of_mem ⟨stops.getD n 0, ?_, hcur⟩
    rw [List.getD_eq_getElem _ _ hn]
    exact List.getElem_mem hn
  rcases lt_trichotomy (findStopIdx t stops) n with h | h | h
  · exact absurd (findStopIdx_spec hlt) (not_le.mpr (hprev _ h))
  · exact h
  · exact absurd hcur (not_le.mpr (findStopIdx_prev_lt h))

lemma getD_mem {l : List Color} {n : ℕ} (h : n < l.length) :
    l.getD n (0, 0, 0) ∈ l := by
  rw [List.getD_eq_getElem _ _ h]
  exact List.getElem_mem h

/-- Core case analysis: with distinct sorted stops in [0,1] whose top is 1
(or a single stop), every lookup entry is a byte-range colour. -/
lemma lookupEntry_inRange {stops : List ℚ} {colors : List Color}
    (hlen : colors.length = stops.length)
    (hne : stops ≠ [])
    (htop : stops.getD (stops.length - 1) 0 = 1 ∨ stops.length = 1)
    (hcol : ∀ c ∈ colors, InRange c)
    (i : ℕ) (hi : i < 256) :
    InRange (lookupEntry stops colors i) := by
  have hlenpos : 0 < stops.length := List.length_pos.mpr hne
  have ht0 : (0 : ℚ) ≤ i / 255 := by positivity
  have ht1 : (i : ℚ) / 255 ≤ 1 := by
    rw [div_le_one (by norm_num : (0:ℚ) < 255)]
    exact_mod_cast Nat.le_of_lt_succ hi
  have hcol' : ∀ j, j < colors.length → InRange (colors.getD j (0, 0, 0)) :=
    fun j hj => hcol _ (getD_mem hj)
  have key : ∀ j, j < colors.length →
      InRange ((colors.getD j (0,0,0)).1, (colors.getD j (0,0,0)).2.1,
               (colors.getD j (0,0,0)).2.2) := by
    intro j hj
    have := hcol' j hj
    exact this
  simp only [lookupEntry]
  by_cases hfound : findStopIdx ((i : ℚ) / 255) stops = stops.length
  · -- search failed: t is above every stop; idx becomes stops.length - 1
    rw [if_pos hfound]
    by_cases hone : stops.length - 1 = 0
    · rw [if_pos hone]
      exact key 0 (by omega)
    · -- length ≥ 2 and t above all stops, impossible when the top stop is 1
      exfalso
      rcases htop with htop | hsingle
      · have hlast : stops.getD (stops.length - 1) 0 < (i : ℚ) / 255 :=
          findStopIdx_prev_lt (by omega)
        rw [htop] at hlast
        exact absurd ht1 (not_le.mpr hlast)
      · omega
  · rw [if_neg hfound]
    have hlt : findStopIdx ((i : ℚ) / 255) stops < stops.length :=
      lt_of_le_of_ne (findStopIdx_le _ _) hfound
    by_cases hzero : findStopIdx ((i : ℚ) / 255) stops = 0
    · rw [if_pos hzero]
      exact key 0 (by omega)
    · rw [if_neg hzero]
      set i0 := findStopIdx ((i : ℚ) / 255) stops with hi0
      have hs0 : stops.getD (i0 - 1) 0 < (i : ℚ) / 255 :=
        findStopIdx_prev_lt (by omega)
      have hs1 : (i : ℚ) / 255 ≤ stops.getD i0 0 := findStopIdx_spec hlt
      have hss : stops.getD (i0 - 1) 0 < stops.getD i0 0 := lt_of_lt_of_le hs0 hs1
      set f : ℚ := ((i : ℚ) / 255 - stops.getD (i0 - 1) 0) /
          (stops.getD i0 0 - stops.getD (i0 - 1) 0) with hf
      have hf0 : 0 ≤ f := by
        apply div_nonneg <;> linarith
      have hf1 : f ≤ 1 := by
        rw [hf, div_le_one (by linarith)]
        linarith
      have hc0 := hcol' (i0 - 1) (by omega)
      have hc1 := hcol' i0 (by omega)
      set c0 := colors.getD (i0 - 1) (0, 0, 0) with hc0def
      set c1 := colors.getD i0 (0, 0, 0) with hc1def
      obtain ⟨h1a, h1b, h1c, h1d, h1e, h1f⟩ := hc0
      obtain ⟨h2a, h2b, h2c, h2d, h2e, h2f⟩ := hc1
      have b1 := convex_between ((c0.1 : ℚ)) ((c1.1 : ℚ)) f hf0 hf1
        (by exact_mod_cast h1a) (by exact_mod_cast h2a)
        (by exact_mod_cast h1b) (by exact_mod_cast h2b)
      have b2 := convex_between ((c0.2.1 : ℚ)) ((c1.2.1 : ℚ)) f hf0 hf1
        (by exact_mod_cast h1c) (by exact_mod_cast h2c)
        (by exact_mod_cast h1d) (by exact_mod_cast h2d)
      have b3 := convex_between ((c0.2.2 : ℚ)) ((c1.2.2 : ℚ)) f hf0 hf1
        (by exact_mod_cast h1e) (by exact_mod_cast h2e)
        (by exact_mod_cast h1f) (by exact_mod_cast h2f)
      have r1 := jsRound_bounds 0 255 ((c0.1 : ℚ) + ((c1.1 : ℚ) - (c0.1 : ℚ)) * f)
        (by exact_mod_cast b1.1) (by exact_mod_cast b1.2)
      have r2 := jsRound_bounds 0 255 ((c0.2.1 : ℚ) + ((c1.2.1 : ℚ) - (c0.2.1 : ℚ)) * f)
        (by exact_mod_cast b2.1) (by exact_mod_cast b2.2)
      have r3 := jsRound_bounds 0 255 ((c0.2.2 : ℚ) + ((c1.2.2 : ℚ) - (c0.2.2 : ℚ)) * f)
        (by exact_mod_cast b3.1) (by exact_mod_cast b3.2)
      exact ⟨r1.1, r1.2, r2.1, r2.2, r3.1, r3.2⟩

@[simp] lemma color_eta (c : Color) : ((c.1, c.2.1, c.2.2) : Color) = c := rfl

lemma lookupEntry_zero (s : ℚ) (rest : List ℚ) (colors : List Color) (h0 : 0 ≤ s) :
    lookupEntry (s :: rest) colors 0 = colors.getD 0 (0, 0, 0) := by
  have hfsi : findStopIdx (((0 : ℕ) : ℚ) / 255) (s :: rest) = 0 := by
    have ht : (((0 : ℕ) : ℚ) / 255) = 0 := by norm_num
    rw [ht]
    simp only [findStopIdx]
    rw [if_pos h0]
  simp only [lookupEntry]
  have hinner : ¬ ((0 : ℕ) = (s :: rest).length) := by simp
  rw [hfsi, if_neg hinner, if_pos rfl]

lemma lookupEntry_last_single (s : ℚ) (colors : List Color) :
    lookupEntry [s] colors 255 = colors.getD 0 (0, 0, 0) := by
  by_cases h : ((255 : ℕ) : ℚ) / 255 ≤ s
  · have hfsi : findStopIdx (((255 : ℕ) : ℚ) / 255) [s] = 0 := by
      simp only [findStopIdx]
      rw [if_pos h]
    simp only [lookupEntry]
    have hinner : ¬ ((0 : ℕ) = [s].length) := by simp
    rw [hfsi, if_neg hinner, if_pos rfl]
  · have hfsi : findStopIdx (((255 : ℕ) : ℚ) / 255) [s] = 1 := by
      simp only [findStopIdx]
      rw [if_neg h]
    simp only [lookupEntry]
    have hinner : (1 : ℕ) = [s].length := by simp
    rw [hfsi, if_pos hinner, if_pos (show [s].length - 1 = 0 by simp)]

lemma lookupEntry_last_top {stops : List ℚ} {colors : List Color}
    (hlen2 : 2 ≤ stops.length)
    (hprev : ∀ k < stops.length - 1, stops.getD k 0 < 1)
    (htop : stops.getD (stops.length - 1) 0 = 1) :
    lookupEntry stops colors 255 = colors.getD (stops.length - 1) (0, 0, 0) := by
  have ht : ((255 : ℕ) : ℚ) / 255 = 1 := by norm_num
  have hfsi : findStopIdx (((255 : ℕ) : ℚ) / 255) stops = stops.length - 1 := by
    rw [ht]
    exact findStopIdx_eq_of (by omega) hprev (le_of_eq htop.symm)
  simp only [lookupEntry]
  have hin1 : ¬ (stops.length - 1 = stops.length) := by omega
  have hin2 : ¬ (stops.length - 1 = 0) := by omega
  rw [hfsi, if_neg hin1, if_neg hin2]
  have hs0 : stops.getD (stops.length - 1 - 1) 0 < 1 := hprev _ (by omega)
  have hden : stops.getD (stops.length - 1) 0 - stops.getD (stops.length - 1 - 1) 0 ≠ 0 := by
    rw [htop]
    intro hcon
    have : stops.getD (stops.length - 1 - 1) 0 = 1 := by linarith
    exact absurd this (ne_of_lt hs0)
  have hf : (((255 : ℕ) : ℚ) / 255 - stops.getD (stops.length - 1 - 1) 0) /
      (stops.getD (stops.length - 1) 0 - stops.getD (stops.length - 1 - 1) 0) = 1 := by
    rw [ht, htop]
    rw [div_eq_one_iff_eq (by rwa [htop] at hden)]
  rw [hf]
  have harith : ∀ a b : ℤ, (a : ℚ) + ((b : ℚ) - (a : ℚ)) * 1 = (b : ℚ) := by
    intro a b
    ring
  rw [harith, harith, harith, jsRound_intCast, jsRound_intCast, jsRound_intCast]

lemma createGradientLookup_length (g : List (ℚ × Color)) :
    (createGradientLookup g).length = 256 := by
  simp [createGradientLookup]

lemma createGradientLookup_getD (g : List (ℚ × Color)) (i : ℕ) (hi : i < 256) :
    (createGradientLookup g).getD i (0, 0, 0) =
      lookupEntry ((g.insertionSort (fun a b => a.1 ≤ b.1)).map (·.1))
        ((g.insertionSort (fun a b => a.1 ≤ b.1)).map (·.2)) i := by
  simp only [createGradientLookup]
  rw [List.getD_eq_getElem _ _ (by simpa using hi)]
  simp [hi]

/-- Amended C2: with distinct stops in [0,1] whose highest stop is at
position 1 (or a single-stop gradient), the table has 256 entries, all in
byte range, entry 0 is the lowest stop's colour and entry 255 the highest
stop's colour.  Without the top-stop-at-1 condition the code linearly
extrapolates past the last stop (see the counterexample). -/
theorem createGradientLookup_spec_amended (g : List (ℚ × Color))
    (hne : g ≠ [])
    (hstops : ∀ p ∈ g, 0 ≤ p.1 ∧ p.1 ≤ 1)
    (hdist : g.Pairwise (fun a b => a.1 ≠ b.1))
    (hcol : ∀ p ∈ g, InRange p.2)
    (htop : (∃ p ∈ g, p.1 = 1) ∨ g.length = 1) :
    (createGradientLookup g).length = 256 ∧
    (∀ c ∈ createGradientLookup g, InRange c) ∧
    (∃ pl ∈ g, (∀ q ∈ g, pl.1 ≤ q.1) ∧
      (createGradientLookup g).getD 0 (0, 0, 0) = pl.2) ∧
    (∃ ph ∈ g, (∀ q ∈ g, q.1 ≤ ph.1) ∧
      (createGradientLookup g).getD 255 (0, 0, 0) = ph.2) := by
  haveI : IsTotal (ℚ × Color) (fun a b => a.1 ≤ b.1) := ⟨fun a b => le_total a.1 b.1⟩
  haveI : IsTrans (ℚ × Color) (fun a b => a.1 ≤ b.1) := ⟨fun a b c h1 h2 => le_trans h1 h2⟩
  have hperm : List.Perm (g.insertionSort (fun a b => a.1 ≤ b.1)) g := List.perm_insertionSort _ g
  have hsort : List.Sorted (fun a b : ℚ × Color => a.1 ≤ b.1)
      (g.insertionSort (fun a b => a.1 ≤ b.1)) := List.sorted_insertionSort _ g
  set sorted := g.insertionSort (fun a b => a.1 ≤ b.1) with hsdef
  have hslen : sorted.length = g.length := hperm.length_eq
  have hsne : sorted ≠ [] := by
    intro h
    apply hne
    have : g.length = 0 := by rw [← hslen, h]; rfl
    exact List.length_eq_zero.mp this
  have hlenpos : 0 < sorted.length := List.length_pos.mpr hsne
  have hmem : ∀ p, p ∈ sorted ↔ p ∈ g := fun p => hperm.mem_iff
  -- keys of sorted are pairwise distinct
  have hdist' : sorted.Pairwise (fun a b : ℚ × Color => a.1 ≠ b.1) :=
    (hperm.pairwise_iff (fun h => h.symm)).mpr hdist
  -- sortedness as getElem facts
  have hsortedElem : ∀ (i j : ℕ) (hi : i < sorted.length) (hj : j < sorted.length),
      i < j → (sorted[i]).1 ≤ (sorted[j]).1 := by
    have := List.pairwise_iff_getElem.mp hsort
    exact fun i j hi hj hij => this i j hi hj hij
  have hdistElem : ∀ (i j : ℕ) (hi : i < sorted.length) (hj : j < sorted.length),
      i < j → (sorted[i]).1 ≠ (sorted[j]).1 := by
    have := List.pairwise_iff_getElem.mp hdist'
    exact fun i j hi hj hij => this i j hi hj hij
  have hstrict : ∀ (i j : ℕ) (hi : i < sorted.length) (hj : j < sorted.length),
      i < j → (sorted[i]).1 < (sorted[j]).1 :=
    fun i j hi hj hij => lt_of_le_of_ne (hsortedElem i j hi hj hij) (hdistElem i j hi hj hij)
  -- the last element of sorted is a maximal stop
  have hlast_max : ∀ q ∈ g, q.1 ≤ (sorted[sorted.length - 1]).1 := by
    intro q hq
    obtain ⟨k, hk, hkq⟩ := List.getElem_of_mem ((hmem q).mpr hq)
    rcases lt_or_eq_of_le (Nat.le_of_lt_succ (by omega : k < sorted.length - 1 + 1)) with h | h
    · exact le_of_lt (hkq ▸ hstrict k (sorted.length - 1) hk (by omega) h)
    · subst h
      exact le_of_eq (by rw [hkq])
  have hhead_min : ∀ q ∈ g, (sorted[0]).1 ≤ q.1 := by
    intro q hq
    obtain ⟨k, hk, hkq⟩ := List.getElem_of_mem ((hmem q).mpr hq)
    rcases Nat.eq_zero_or_pos k with h | h
    · subst h
      exact le_of_eq (by rw [hkq])
    · exact le_of_lt (hkq ▸ hstrict 0 k hlenpos hk h)
  -- transfer of range and colour hypotheses to the mapped lists
  have hstops' : ∀ s ∈ sorted.map (fun p : ℚ × Color => p.1), 0 ≤ s ∧ s ≤ 1 := by
    intro s hs
    obtain ⟨p, hp, rfl⟩ := List.mem_map.mp hs
    exact hstops p ((hmem p).mp hp)
  have hcol' : ∀ c ∈ sorted.map (fun p : ℚ × Color => p.2), InRange c := by
    intro c hc
    obtain ⟨p, hp, rfl⟩ := List.mem_map.mp hc
    exact hcol p ((hmem p).mp hp)
  have hmaplen : (sorted.map (fun p : ℚ × Color => p.2)).length =
      (sorted.map (fun p : ℚ × Color => p.1)).length := by simp
  have hmapne : sorted.map (fun p : ℚ × Color => p.1) ≠ [] := by
    simpa using hsne
  -- the top stop of the sorted key list
  have hkey_getD : ∀ (k : ℕ) (hk : k < sorted.length),
      (sorted.map (fun p : ℚ × Color => p.1)).getD k 0 = (sorted[k]).1 := by
    intro k hk
    rw [List.getD_eq_getElem _ _ (by simpa using hk)]
    simp
  have hcol_getD : ∀ (k : ℕ) (hk : k < sorted.length),
      (sorted.map (fun p : ℚ × Color => p.2)).getD k (0, 0, 0) = (sorted[k]).2 := by
    intro k hk
    rw [List.getD_eq_getElem _ _ (by simpa using hk)]
    simp
  have htop' : (sorted.map (fun p : ℚ × Color => p.1)).getD
      ((sorted.map (fun p : ℚ × Color => p.1)).length - 1) 0 = 1 ∨
      (sorted.map (fun p : ℚ × Color => p.1)).length = 1 := by
    rcases htop with ⟨p, hp, hp1⟩ | h1
    · left
      have hk := hkey_getD (sorted.length - 1) (by omega)
      rw [List.length_map]
      rw [hk]
      have hle : (sorted[sorted.length - 1]).1 ≤ 1 :=
        (hstops _ ((hmem _).mp (List.getElem_mem _))).2
      have hge : 1 ≤ (sorted[sorted.length - 1]).1 := hp1 ▸ hlast_max p hp
      linarith
    · right
      rw [List.length_map, hslen, h1]
  refine ⟨createGradientLookup_length g, ?_, ?_, ?_⟩
  · -- all entries in range
    intro c hc
    simp only [createGradientLookup] at hc
    obtain ⟨i, hi, rfl⟩ := List.mem_map.mp hc
    have hi' : i < 256 := List.mem_range.mp hi
    exact lookupEntry_inRange hmaplen hmapne htop' hcol' i hi'
  · -- entry 0 is the lowest stop's colour
    obtain ⟨p, tail, hcons⟩ := List.exists_cons_of_ne_nil hsne
    refine ⟨p, (hmem p).mp (by rw [hcons]; exact List.mem_cons_self _ _), ?_, ?_⟩
    · have : sorted[0] = p := by simp [hcons]
      exact fun q hq => this ▸ hhead_min q hq
    · rw [createGradientLookup_getD g 0 (by norm_num)]
      rw [← hsdef, hcons]
      simp only [List.map_cons]
      rw [lookupEntry_zero _ _ _ (hstops p ((hmem p).mp (by rw [hcons]; exact List.mem_cons_self _ _))).1]
      rfl
  · -- entry 255 is the highest stop's colour
    by_cases hl1 : sorted.length = 1
    · obtain ⟨p, tail, hcons⟩ := List.exists_cons_of_ne_nil hsne
      have htail : tail = [] := by
        have := hl1
        rw [hcons] at this
        simpa using this
      subst htail
      refine ⟨p, (hmem p).mp (by rw [hcons]; exact List.mem_cons_self _ _), ?_, ?_⟩
      · have : sorted[sorted.length - 1] = p := by
          simp [hcons]
        exact fun q hq => this ▸ hlast_max q hq
      · rw [createGradientLookup_getD g 255 (by norm_num)]
        rw [← hsdef, hcons]
        simp only [List.map_cons, List.map_nil]
        rw [lookupEntry_last_single]
        rfl
    · have hl2 : 2 ≤ sorted.length := by omega
      have htop1 : (sorted.map (fun p : ℚ × Color => p.1)).getD
          ((sorted.map (fun p : ℚ × Color => p.1)).length - 1) 0 = 1 := by
        rcases htop' with h | h
        · exact h
        · exfalso
          rw [List.length_map] at h
          omega
      refine ⟨sorted[sorted.length - 1],
        (hmem _).mp (List.getElem_mem _), fun q hq => hlast_max q hq, ?_⟩
      rw [createGradientLookup_getD g 255 (by norm_num)]
      rw [← hsdef]
      have hprev : ∀ k < (sorted.map (fun p : ℚ × Color => p.1)).length - 1,
          (sorted.map (fun p : ℚ × Color => p.1)).getD k 0 < 1 := by
        intro k hk
        rw [List.length_map] at hk
        rw [hkey_getD k (by omega)]
        calc (sorted[k]).1
            < (sorted[sorted.length - 1]).1 :=
              hstrict k (sorted.length - 1) (by omega) (by omega) hk
          _ = 1 := by
              have := htop1
              rw [List.length_map] at this
              rw [hkey_getD (sorted.length - 1) (by omega)] at this
              exact this
      rw [lookupEntry_last_top (by simpa using hl2) hprev htop1]
      rw [List.length_map]
      exact hcol_getD (sorted.length - 1) (by omega)

lemma demoGradHalf_entry255 :
    (createGradientLookup demoGradHalf).getD 255 (0, 0, 0) = (510, 510, 510) := by
  rw [createGradientLookup_getD demoGradHalf 255 (by norm_num)]
  have hsort_eval : List.insertionSort (fun a b : ℚ × Color => a.1 ≤ b.1) demoGradHalf
      = demoGradHalf := by
    norm_num [demoGradHalf, List.insertionSort, List.orderedInsert]
  rw [hsort_eval]
  have hmaps : demoGradHalf.map (fun p : ℚ × Color => p.1) = [0, 1 / 2] := by
    norm_num [demoGradHalf]
  have hmapc : demoGradHalf.map (fun p : ℚ × Color => p.2) =
      [((0 : ℤ), (0 : ℤ), (0 : ℤ)), (255, 255, 255)] := by
    norm_num [demoGradHalf]
  rw [hmaps, hmapc]
  have hfsi : findStopIdx (((255 : ℕ) : ℚ) / 255) [0, 1 / 2] = 2 := by
    simp only [findStopIdx]
    rw [if_neg (by norm_num), if_neg (by norm_num)]
  simp only [lookupEntry]
  rw [hfsi, if_pos (show (2 : ℕ) = ([0, 1 / 2] : List ℚ).length by norm_num),
    if_neg (show ¬ (([0, 1 / 2] : List ℚ).length - 1 = 0) by norm_num)]
  norm_num [jsRound]

theorem createGradientLookup_extrapolation_cex :
    (∀ p ∈ demoGradHalf, 0 ≤ p.1 ∧ p.1 ≤ 1) ∧
    demoGradHalf ≠ [] ∧
    (createGradientLookup demoGradHalf).getD 255 (0, 0, 0) = (510, 510, 510) ∧
    ¬ InRange ((createGradientLookup demoGradHalf).getD 255 (0, 0, 0)) ∧
    (createGradientLookup demoGradHalf).getD 255 (0, 0, 0) ≠ (255, 255, 255) := by
  refine ⟨by norm_num [demoGradHalf], by simp [demoGradHalf], demoGradHalf_entry255,
    ?_, ?_⟩
  · rw [demoGradHalf_entry255]
    decide
  · rw [demoGradHalf_entry255]
    decide

theorem createGradientLookup_spec_amended_witness :
    (demoGradFull ≠ [] ∧
     (∀ p ∈ demoGradFull, 0 ≤ p.1 ∧ p.1 ≤ 1) ∧
     demoGradFull.Pairwise (fun a b => a.1 ≠ b.1) ∧
     (∀ p ∈ demoGradFull, InRange p.2) ∧
     ((∃ p ∈ demoGradFull, p.1 = 1) ∨ demoGradFull.length = 1)) ∧
    ((createGradientLookup demoGradFull).length = 256 ∧
     (∀ c ∈ createGradientLookup demoGradFull, InRange c) ∧
     (∃ pl ∈ demoGradFull, (∀ q ∈ demoGradFull, pl.1 ≤ q.1) ∧
       (createGradientLookup demoGradFull).getD 0 (0, 0, 0) = pl.2) ∧
     (∃ ph ∈ demoGradFull, (∀ q ∈ demoGradFull, q.1 ≤ ph.1) ∧
       (createGradientLookup demoGradFull).getD 255 (0, 0, 0) = ph.2)) := by
  have h1 : demoGradFull ≠ [] := by simp [demoGradFull]
  have h2 : ∀ p ∈ demoGradFull, 0 ≤ p.1 ∧ p.1 ≤ 1 := by norm_num [demoGradFull]
  have h3 : demoGradFull.Pairwise (fun a b => a.1 ≠ b.1) := by
    norm_num [demoGradFull]
  have h4 : ∀ p ∈ demoGradFull, InRange p.2 := by norm_num [demoGradFull, InRange]
  have h5 : (∃ p ∈ demoGradFull, p.1 = 1) ∨ demoGradFull.length = 1 := by
    left
    exact ⟨(1, (255, 255, 255)), by simp [demoGradFull], rfl⟩
  exact ⟨⟨h1, h2, h3, h4, h5⟩, createGradientLookup_spec_amended demoGradFull h1 h2 h3 h4 h5⟩

/-- Inverting the Mercator projection recovers the latitude, for
latitudes strictly between the poles. -/
lemma mercToLat_latToMerc {l : ℝ} (h1 : -90 < l) (h2 : l < 90) :
    mercToLat (latToMerc l) = l := by
  have hπ := Real.pi_pos
  have hu1 : 0 < π / 4 + l * π / 180 / 2 := by nlinarith
  have hu2 : π / 4 + l * π / 180 / 2 < π / 2 := by nlinarith
  have htan : 0 < Real.tan (π / 4 + l * π / 180 / 2) :=
    Real.tan_pos_of_pos_of_lt_pi_div_two hu1 hu2
  rw [mercToLat, latToMerc, Real.exp_log htan,
    Real.arctan_tan (by linarith) hu2]
  field_simp
  ring

/-- C1 (code bug): in `pixelToLatLng` the Mercator-Y interpolation starts
from `minLat`'s Mercator-Y at `y = 0`, so the TOP edge of the image maps
to `minLat` (here 0), not `maxLat` (here 10); the bottom edge `y = height`
maps to `maxLat`.  The spec says the top row is `maxLat` (north-up). -/
theorem pixelToLatLng_top_edge_is_minLat :
    (pixelToLatLng 0 0 100 100 demoBounds).lat = demoBounds.minLat ∧
    (pixelToLatLng 0 100 100 100 demoBounds).lat = demoBounds.maxLat ∧
    demoBounds.minLat ≠ demoBounds.maxLat := by
  have h0 : mercToLat (latToMerc 0) = 0 := mercToLat_latToMerc (by norm_num) (by norm_num)
  have h10 : mercToLat (latToMerc 10) = 10 := mercToLat_latToMerc (by norm_num) (by norm_num)
  refine ⟨?_, ?_, by norm_num [demoBounds]⟩
  · show mercToLat (latToMerc demoBounds.minLat +
      0 / 100 * (latToMerc demoBounds.maxLat - latToMerc demoBounds.minLat)) = _
    norm_num [demoBounds, h0]
  · show mercToLat (latToMerc demoBounds.minLat +
      100 / 100 * (latToMerc demoBounds.maxLat - latToMerc demoBounds.minLat)) = _
    norm_num [demoBounds, h10]

lemma haversine_self (a : LatLng) : haversine a a = 0 := by
  simp only [haversine, jsAtan2, sub_self, zero_mul, zero_div, Real.sin_zero]
  norm_num [Real.sqrt_one, Real.arctan_zero]

lemma jsAtan2_nonneg {y x : ℝ} (hy : 0 ≤ y) (hx : 0 ≤ x) : 0 ≤ jsAtan2 y x := by
  have hπ := Real.pi_pos
  unfold jsAtan2
  split
  · have hz : 0 ≤ y / x := div_nonneg hy (le_of_lt (by assumption))
    have := Real.arctan_strictMono.monotone hz
    rwa [Real.arctan_zero] at this
  · split
    · linarith [lt_of_lt_of_le (by assumption : x < 0) hx]
    · split
      · linarith
      · split
        · linarith [lt_of_lt_of_le (by assumption : y < 0) hy]
        · exact le_refl 0

lemma haversine_nonneg (a b : LatLng) : 0 ≤ haversine a b := by
  simp only [haversine]
  have h := jsAtan2_nonneg
    (Real.sqrt_nonneg (Real.sin ((b.lat - a.lat) * π / 180 / 2) ^ 2 +
      Real.cos (a.lat * π / 180) * Real.cos (b.lat * π / 180) *
        Real.sin ((b.lng - a.lng) * π / 180 / 2) ^ 2))
    (Real.sqrt_nonneg (1 - (Real.sin ((b.lat - a.lat) * π / 180 / 2) ^ 2 +
      Real.cos (a.lat * π / 180) * Real.cos (b.lat * π / 180) *
        Real.sin ((b.lng - a.lng) * π / 180 / 2) ^ 2)))
  exact mul_nonneg (by norm_num) h

lemma dist2_pos {d : ℝ} (e : ℕ) (hd : 0 ≤ d) :
    0 < (if d ^ e = 0 then (1e-6 : ℝ) else d ^ e) := by
  split
  · norm_num
  · rename_i h
    exact lt_of_le_of_ne (pow_nonneg hd e) (Ne.symm h)

lemma codeWeight_pos {d : ℝ} (e : ℕ) (hd : 0 ≤ d) : 0 < codeWeight d e :=
  one_div_pos.mpr (dist2_pos e hd)

/-- The numerator accumulated by the loop is the weighted sum of the
values, the denominator the sum of the weights. -/
lemma cellAccumAux_sums (ll : LatLng) (e : ℕ) (pts : List Point) :
    ∀ acc : ℝ × ℝ × Option ℝ,
      (cellAccumAux ll e pts acc).1 =
        acc.1 + (pts.map (fun pt =>
          pt.2.2 * codeWeight (haversine ll ⟨pt.1, pt.2.1⟩) e)).sum ∧
      (cellAccumAux ll e pts acc).2.1 =
        acc.2.1 + (pts.map (fun pt =>
          codeWeight (haversine ll ⟨pt.1, pt.2.1⟩) e)).sum := by
  induction pts with
  | nil => intro acc; simp [cellAccumAux]
  | cons pt rest ih =>
    intro acc
    simp only [cellAccumAux, List.map_cons, List.sum_cons]
    constructor
    · rw [(ih _).1]
      simp only [codeWeight]
      ring
    · rw [(ih _).2]
      simp only [codeWeight]
      ring

lemma denSum_pos (points : List Point) (ll : LatLng) (e : ℕ) (hne : points ≠ []) :
    0 < (points.map (fun pt => codeWeight (haversine ll ⟨pt.1, pt.2.1⟩) e)).sum := by
  obtain ⟨p, rest, rfl⟩ := List.exists_cons_of_ne_nil hne
  simp only [List.map_cons, List.sum_cons]
  have h1 : 0 < codeWeight (haversine ll ⟨p.1, p.2.1⟩) e :=
    codeWeight_pos e (haversine_nonneg _ _)
  have h2 : 0 ≤ (rest.map (fun pt => codeWeight (haversine ll ⟨pt.1, pt.2.1⟩) e)).sum := by
    apply List.sum_nonneg
    intro x hx
    obtain ⟨pt, hpt, rfl⟩ := List.mem_map.mp hx
    exact le_of_lt (codeWeight_pos e (haversine_nonneg _ _))
  linarith

/-- C4 amended: the interpolated value is `Σ(value·w)/Σ(w)` with the
weight the code actually uses, `w = 1/(dist^exp || 1e-6)` — the `1e-6`
fallback fires only at exactly zero distance, not for
`0 < dist^exp < 1e-6`. -/
theorem interpolVal_weighted_sum (points : List Point) (ll : LatLng) (e : ℕ)
    (hne : points ≠ []) :
    interpolValOf points ll e =
      some ((points.map (fun pt =>
          pt.2.2 * codeWeight (haversine ll ⟨pt.1, pt.2.1⟩) e)).sum /
        (points.map (fun pt =>
          codeWeight (haversine ll ⟨pt.1, pt.2.1⟩) e)).sum) := by
  have hsums := cellAccumAux_sums ll e points (0, 0, none)
  have hden := denSum_pos points ll e hne
  simp only [interpolValOf, cellAccum]
  rw [if_neg (by rw [hsums.2]; simpa using ne_of_gt hden)]
  rw [hsums.1, hsums.2]
  simp

lemma numSum_ge (points : List Point) (ll : LatLng) (e : ℕ) (lo : ℝ)
    (hb : ∀ p ∈ points, lo ≤ p.2.2) :
    lo * (points.map (fun pt => codeWeight (haversine ll ⟨pt.1, pt.2.1⟩) e)).sum ≤
      (points.map (fun pt => pt.2.2 * codeWeight (haversine ll ⟨pt.1, pt.2.1⟩) e)).sum := by
  induction points with
  | nil => simp
  | cons p rest ih =>
    simp only [List.map_cons, List.sum_cons, mul_add]
    have hw : 0 ≤ codeWeight (haversine ll ⟨p.1, p.2.1⟩) e :=
      le_of_lt (codeWeight_pos e (haversine_nonneg _ _))
    have h1 : lo * codeWeight (haversine ll ⟨p.1, p.2.1⟩) e ≤
        p.2.2 * codeWeight (haversine ll ⟨p.1, p.2.1⟩) e :=
      mul_le_mul_of_nonneg_right (hb p (List.mem_cons_self _ _)) hw
    have h2 := ih (fun q hq => hb q (List.mem_cons_of_mem _ hq))
    linarith

lemma numSum_le (points : List Point) (ll : LatLng) (e : ℕ) (hi : ℝ)
    (hb : ∀ p ∈ points, p.2.2 ≤ hi) :
    (points.map (fun pt => pt.2.2 * codeWeight (haversine ll ⟨pt.1, pt.2.1⟩) e)).sum ≤
      hi * (points.map (fun pt => codeWeight (haversine ll ⟨pt.1, pt.2.1⟩) e)).sum := by
  induction points with
  | nil => simp
  | cons p rest ih =>
    simp only [List.map_cons, List.sum_cons, mul_add]
    have hw : 0 ≤ codeWeight (haversine ll ⟨p.1, p.2.1⟩) e :=
      le_of_lt (codeWeight_pos e (haversine_nonneg _ _))
    have h1 : p.2.2 * codeWeight (haversine ll ⟨p.1, p.2.1⟩) e ≤
        hi * codeWeight (haversine ll ⟨p.1, p.2.1⟩) e :=
      mul_le_mul_of_nonneg_right (hb p (List.mem_cons_self _ _)) hw
    have h2 := ih (fun q hq => hb q (List.mem_cons_of_mem _ hq))
    linarith

/-- C7: with a single sample point the interpolated value is that
point's value, whatever the distance. -/
theorem interpolVal_single_point (p : Point) (ll : LatLng) (e : ℕ) :
    interpolValOf [p] ll e = some p.2.2 := by
  rw [interpolVal_weighted_sum [p] ll e (by simp)]
  have hw : codeWeight (haversine ll ⟨p.1, p.2.1⟩) e ≠ 0 :=
    ne_of_gt (codeWeight_pos e (haversine_nonneg _ _))
  simp only [List.map_cons, List.map_nil, List.sum_cons, List.sum_nil, add_zero]
  rw [mul_div_assoc, div_self hw, mul_one]

/-- C10: for any non-empty point set the interpolated value (before the
clamp to `max`) is a convex combination of the sample values: it lies
between any lower and upper bound of the supplied values, because every
weight `1/(dist^exp || 1e-6)` is strictly positive. -/
theorem interpolVal_convex (points : List Point) (ll : LatLng) (e : ℕ) (lo hi : ℝ)
    (hne : points ≠ []) (hb : ∀ p ∈ points, lo ≤ p.2.2 ∧ p.2.2 ≤ hi) :
    ∃ v : ℝ, interpolValOf points ll e = some v ∧ lo ≤ v ∧ v ≤ hi := by
  rw [interpolVal_weighted_sum points ll e hne]
  refine ⟨_, rfl, ?_, ?_⟩
  · rw [le_div_iff₀ (denSum_pos points ll e hne)]
    exact numSum_ge points ll e lo (fun p hp => (hb p hp).1)
  · rw [div_le_iff₀ (denSum_pos points ll e hne)]
    have := numSum_le points ll e hi (fun p hp => (hb p hp).2)
    linarith

theorem interpolVal_convex_witness :
    (([((0 : ℝ), (0 : ℝ), (5 : ℝ))] : List Point) ≠ [] ∧
      (∀ p ∈ ([((0 : ℝ), (0 : ℝ), (5 : ℝ))] : List Point), 2 ≤ p.2.2 ∧ p.2.2 ≤ 7)) ∧
    ∃ v : ℝ, interpolValOf [((0 : ℝ), (0 : ℝ), (5 : ℝ))] ⟨0, 0⟩ 2 = some v ∧
      2 ≤ v ∧ v ≤ 7 := by
  have h1 : ([((0 : ℝ), (0 : ℝ), (5 : ℝ))] : List Point) ≠ [] := by simp
  have h2 : ∀ p ∈ ([((0 : ℝ), (0 : ℝ), (5 : ℝ))] : List Point), 2 ≤ p.2.2 ∧ p.2.2 ≤ 7 := by
    norm_num
  exact ⟨⟨h1, h2⟩, interpolVal_convex _ ⟨0, 0⟩ 2 2 7 h1 h2⟩

/-- C6: the feathering alpha uses the hard-coded
`FADE_DISTANCE = 100000` metres: alpha is 1 up to that distance,
`max(0, 1 − (minDist − F)/F)` beyond it, monotonically non-increasing
in `minDist`, and floored at 0. -/
theorem alpha_feathering (d : ℝ) :
    FADE_DISTANCE = 100000 ∧
    (d ≤ FADE_DISTANCE → alphaOf (some d) = 1) ∧
    (FADE_DISTANCE < d →
      alphaOf (some d) = max 0 (1 - (d - FADE_DISTANCE) / FADE_DISTANCE)) ∧
    (∀ d2 : ℝ, d ≤ d2 → alphaOf (some d2) ≤ alphaOf (some d)) ∧
    0 ≤ alphaOf (some d) := by
  have hF : (0 : ℝ) < FADE_DISTANCE := by norm_num [FADE_DISTANCE]
  have heval : ∀ x : ℝ, alphaOf (some x) =
      if x > FADE_DISTANCE then max 0 (1 - (x - FADE_DISTANCE) / FADE_DISTANCE) else 1 := by
    intro x
    rfl
  refine ⟨rfl, ?_, ?_, ?_, ?_⟩
  · intro h
    rw [heval, if_neg (not_lt.mpr h)]
  · intro h
    rw [heval, if_pos h]
  · intro d2 h
    rw [heval, heval]
    split
    · split
      · rename_i h1 h2
        apply max_le_max (le_refl 0)
        have : (d - FADE_DISTANCE) / FADE_DISTANCE ≤ (d2 - FADE_DISTANCE) / FADE_DISTANCE :=
          (div_le_div_iff_of_pos_right hF).mpr (by linarith)
        linarith
      · rename_i h1 h2
        exact max_le (by linarith) (by
          have : 0 < (d2 - FADE_DISTANCE) / FADE_DISTANCE :=
            div_pos (by linarith) hF
          linarith)
    · split
      · rename_i h1 h2
        exact absurd (lt_of_le_of_lt (not_lt.mp h1) h2) (not_lt.mpr h)
      · exact le_refl 1
  · rw [heval]
    split
    · exact le_max_left 0 _
    · norm_num

theorem alpha_feathering_witness :
    ((200000 : ℝ) ≤ 250000 ∧ FADE_DISTANCE < (200000 : ℝ) ∧ (50000 : ℝ) ≤ FADE_DISTANCE) ∧
    alphaOf (some (50000 : ℝ)) = 1 ∧
    alphaOf (some (200000 : ℝ)) =
      max 0 (1 - ((200000 : ℝ) - FADE_DISTANCE) / FADE_DISTANCE) ∧
    alphaOf (some (250000 : ℝ)) ≤ alphaOf (some (200000 : ℝ)) ∧
    0 ≤ alphaOf (some (200000 : ℝ)) := by
  have h1 : (200000 : ℝ) ≤ 250000 := by norm_num
  have h2 : FADE_DISTANCE < (200000 : ℝ) := by norm_num [FADE_DISTANCE]
  have h3 : (50000 : ℝ) ≤ FADE_DISTANCE := by norm_num [FADE_DISTANCE]
  exact ⟨⟨h1, h2, h3⟩, (alpha_feathering 50000).2.1 h3,
    (alpha_feathering 200000).2.2.1 h2,
    (alpha_feathering 200000).2.2.2.1 250000 h1,
    (alpha_feathering 200000).2.2.2.2⟩

/-- C5 amended: the gradient index is 0 whenever `max == 0`; for
`max > 0` it is `round((min(value,max)/max)·255)` with NO explicit
clamping — it stays in [0,255] provided every sample value is
non-negative (the `Math.min` clamp provides the upper bound, convexity
the lower).  A negative sample value drives it negative and out of
bounds (see the counterexample). -/
theorem gradientIndex_in_bounds (points : List Point) (ll : LatLng) (e : ℕ)
    (maxv : ℝ) (hmax : 0 < maxv) (hne : points ≠ [])
    (hval : ∀ p ∈ points, 0 ≤ p.2.2) :
    (∀ w : Option ℝ, gradientIndexOf w 0 = some 0) ∧
    ∃ k : ℤ, gradientIndexOf ((interpolValOf points ll e).map (fun x => min x maxv)) maxv =
      some k ∧ 0 ≤ k ∧ k ≤ 255 := by
  refine ⟨fun w => by simp [gradientIndexOf], ?_⟩
  rw [interpolVal_weighted_sum points ll e hne]
  have hnum : 0 ≤ (points.map (fun pt =>
      pt.2.2 * codeWeight (haversine ll ⟨pt.1, pt.2.1⟩) e)).sum := by
    have := numSum_ge points ll e 0 hval
    linarith
  have hden := denSum_pos points ll e hne
  set V := (points.map (fun pt =>
      pt.2.2 * codeWeight (haversine ll ⟨pt.1, pt.2.1⟩) e)).sum /
    (points.map (fun pt => codeWeight (haversine ll ⟨pt.1, pt.2.1⟩) e)).sum with hV
  have hV0 : 0 ≤ V := div_nonneg hnum (le_of_lt hden)
  have hVc0 : 0 ≤ min V maxv := le_min hV0 (le_of_lt hmax)
  have hVc1 : min V maxv ≤ maxv := min_le_right _ _
  have hx0 : (0 : ℝ) ≤ min V maxv / maxv * 255 := by positivity
  have hx1 : min V maxv / maxv * 255 ≤ 255 := by
    have h1 : min V maxv / maxv ≤ 1 := (div_le_one hmax).mpr hVc1
    nlinarith
  refine ⟨jsRound (min V maxv / maxv * 255), ?_, ?_, ?_⟩
  · simp only [gradientIndexOf, Option.map_some', if_neg (ne_of_gt hmax)]
  · exact (jsRound_bounds 0 255 _ (by exact_mod_cast hx0) (by exact_mod_cast hx1)).1
  · exact (jsRound_bounds 0 255 _ (by exact_mod_cast hx0) (by exact_mod_cast hx1)).2

theorem gradientIndex_in_bounds_witness :
    ((0 : ℝ) < 1 ∧ ([((0 : ℝ), (0 : ℝ), (5 : ℝ))] : List Point) ≠ [] ∧
      (∀ p ∈ ([((0 : ℝ), (0 : ℝ), (5 : ℝ))] : List Point), 0 ≤ p.2.2)) ∧
    ((∀ w : Option ℝ, gradientIndexOf w 0 = some 0) ∧
     ∃ k : ℤ, gradientIndexOf
        ((interpolValOf [((0 : ℝ), (0 : ℝ), (5 : ℝ))] ⟨0, 0⟩ 2).map (fun x => min x 1)) 1 =
        some k ∧ 0 ≤ k ∧ k ≤ 255) := by
  have h1 : (0 : ℝ) < 1 := by norm_num
  have h2 : ([((0 : ℝ), (0 : ℝ), (5 : ℝ))] : List Point) ≠ [] := by simp
  have h3 : ∀ p ∈ ([((0 : ℝ), (0 : ℝ), (5 : ℝ))] : List Point), 0 ≤ p.2.2 := by norm_num
  exact ⟨⟨h1, h2, h3⟩, gradientIndex_in_bounds _ ⟨0, 0⟩ 2 1 h1 h2 h3⟩

/-- C5 counterexample: a single sample with the negative value −5 gives
interpolated value −5 at every cell; with `max = 1` the gradient index
is `round(−5·255) = −1275`, which is negative and out of bounds — the
lookup yields `undefined` and the cell computation throws, so the index
is neither 0 nor clamped to [0,255]. -/
theorem gradientIndex_negative_cex :
    gradientIndexOf
        ((interpolValOf [((0 : ℝ), (0 : ℝ), (-5 : ℝ))] ⟨0, 0⟩ 2).map (fun x => min x 1)) 1 =
      some (-1275) ∧
    (-1275 : ℤ) < 0 ∧
    jsIndex (createGradientLookup demoGradFull) (some (-1275)) = none ∧
    computeCell [((0 : ℝ), (0 : ℝ), (-5 : ℝ))] 2 1 (createGradientLookup demoGradFull)
      ((createGradientLookup demoGradFull).headD (0, 0, 0)) ⟨0, 0⟩ =
      Except.error JsError.typeError := by
  have hval : interpolValOf [((0 : ℝ), (0 : ℝ), (-5 : ℝ))] ⟨0, 0⟩ 2 = some (-5) :=
    interpolVal_single_point _ _ _
  have hmin : min (-5 : ℝ) 1 = -5 := min_eq_left (by norm_num)
  have hidx : gradientIndexOf
      ((interpolValOf [((0 : ℝ), (0 : ℝ), (-5 : ℝ))] ⟨0, 0⟩ 2).map (fun x => min x 1)) 1 =
      some (-1275) := by
    rw [hval]
    simp only [Option.map_some', gradientIndexOf, if_neg (one_ne_zero)]
    rw [hmin]
    congr 1
    have : (-5 : ℝ) / 1 * 255 = -1275 := by norm_num
    rw [jsRound, this]
    rw [Int.floor_eq_iff]
    constructor <;> norm_num
  refine ⟨hidx, by norm_num, by simp [jsIndex], ?_⟩
  simp only [computeCell]
  rw [hidx]
  simp [jsIndex]

/-- On the equator the haversine formula reduces to arc length:
`haversine (0,0) (0,l) = R·2·(l·π/360)` for `0 ≤ l ≤ 90`. -/
lemma haversine_equator {l : ℝ} (h0 : 0 ≤ l) (h90 : l ≤ 90) :
    haversine ⟨0, 0⟩ ⟨0, l⟩ = 6371000 * 2 * (l * π / 180 / 2) := by
  have hπ := Real.pi_pos
  have hu0 : 0 ≤ l * π / 180 / 2 := by positivity
  have hupi2 : l * π / 180 / 2 < π / 2 := by nlinarith
  have hsin : 0 ≤ Real.sin (l * π / 180 / 2) :=
    Real.sin_nonneg_of_nonneg_of_le_pi hu0 (by nlinarith)
  have hcos : 0 < Real.cos (l * π / 180 / 2) :=
    Real.cos_pos_of_mem_Ioo ⟨by linarith, hupi2⟩
  simp only [haversine]
  have harg1 : ((0 : ℝ) - 0) * π / 180 / 2 = 0 := by ring
  have harg2 : (l - 0) * π / 180 / 2 = l * π / 180 / 2 := by ring
  have harg3 : (0 : ℝ) * π / 180 = 0 := by ring
  rw [harg1, harg2, harg3, Real.sin_zero, Real.cos_zero]
  have harg4 : (0 : ℝ) ^ 2 + 1 * 1 * Real.sin (l * π / 180 / 2) ^ 2 =
      Real.sin (l * π / 180 / 2) ^ 2 := by ring
  rw [harg4, Real.sqrt_sq hsin, ← Real.cos_sq', Real.sqrt_sq (le_of_lt hcos)]
  simp only [jsAtan2]
  rw [if_pos hcos, ← Real.tan_eq_sin_div_cos,
    Real.arctan_tan (by linarith) hupi2]

/-- C4 counterexample: cell at the equator origin, one sample 1e-9
degrees of longitude away (about 0.1 mm, so `0 < dist² < 1e-6`) with
value 0, one sample at the cell itself with value 1.  The code divides
by `dist²` itself (the `||` fallback fires only at exactly 0), while the
claim's `max(dist², 1e-6)` would clamp the tiny weight; the two
formulas give different values (≈0 versus 1/2). -/
theorem interpolVal_weight_clamp_cex :
    interpolValOf [((0 : ℝ), 1e-9, 0), ((0 : ℝ), 0, 1)] ⟨0, 0⟩ 2 ≠
      some (specIDWValue [((0 : ℝ), 1e-9, 0), ((0 : ℝ), 0, 1)] ⟨0, 0⟩ 2) := by
  have hπ3 := Real.pi_gt_three
  have hπ4 : π < 4 := by linarith [Real.pi_lt_d2]
  have hd1 : haversine ⟨0, 0⟩ ⟨0, (1e-9 : ℝ)⟩ =
      6371000 * 2 * ((1e-9 : ℝ) * π / 180 / 2) :=
    haversine_equator (by norm_num) (by norm_num)
  have hd1pos : 0 < haversine ⟨0, 0⟩ ⟨0, (1e-9 : ℝ)⟩ := by
    rw [hd1]
    positivity
  have hd1small : haversine ⟨0, 0⟩ ⟨0, (1e-9 : ℝ)⟩ < 1e-3 := by
    rw [hd1]
    nlinarith
  have hd1sq : haversine ⟨0, 0⟩ ⟨0, (1e-9 : ℝ)⟩ ^ 2 < 1e-6 := by
    nlinarith
  have hd2 : haversine (⟨0, 0⟩ : LatLng) ⟨0, 0⟩ = 0 := haversine_self _
  rw [interpolVal_weighted_sum _ _ _ (by simp)]
  set d1 := haversine ⟨0, 0⟩ ⟨0, (1e-9 : ℝ)⟩ with hd1def
  have hw1 : codeWeight d1 2 = 1 / d1 ^ 2 := by
    unfold codeWeight
    rw [if_neg (pow_ne_zero 2 (ne_of_gt hd1pos))]
  have hw2 : codeWeight 0 2 = 1e6 := by
    unfold codeWeight
    rw [if_pos (by norm_num)]
    norm_num
  have hsw1 : specWeight d1 2 = 1e6 := by
    unfold specWeight
    rw [max_eq_right (le_of_lt hd1sq)]
    norm_num
  have hsw2 : specWeight 0 2 = 1e6 := by
    unfold specWeight
    norm_num
  simp only [List.map_cons, List.map_nil, List.sum_cons, List.sum_nil, specIDWValue]
  intro hcon
  rw [Option.some_inj] at hcon
  have hcast1 : haversine ⟨0, 0⟩ ⟨((0 : ℝ), 1e-9, 0).1, ((0 : ℝ), 1e-9, 0).2.1⟩ = d1 := rfl
  have hcast2 : haversine ⟨0, 0⟩ ⟨((0 : ℝ), 0, 1).1, ((0 : ℝ), 0, 1).2.1⟩ = 0 := hd2
  rw [hcast1, hcast2, hw1, hw2, hsw1, hsw2] at hcon
  have hd1ne : d1 ≠ 0 := ne_of_gt hd1pos
  have hd1sqpos : 0 < d1 ^ 2 := by positivity
  field_simp at hcon
  nlinarith [hcon, hd1sq, hd1sqpos]

theorem interpolVal_weighted_sum_witness :
    (([((0 : ℝ), (0 : ℝ), (5 : ℝ))] : List Point) ≠ []) ∧
    interpolValOf [((0 : ℝ), (0 : ℝ), (5 : ℝ))] ⟨0, 0⟩ 2 =
      some ((([((0 : ℝ), (0 : ℝ), (5 : ℝ))] : List Point).map (fun pt =>
          pt.2.2 * codeWeight (haversine ⟨0, 0⟩ ⟨pt.1, pt.2.1⟩) 2)).sum /
        (([((0 : ℝ), (0 : ℝ), (5 : ℝ))] : List Point).map (fun pt =>
          codeWeight (haversine ⟨0, 0⟩ ⟨pt.1, pt.2.1⟩) 2)).sum) :=
  ⟨by simp, interpolVal_weighted_sum _ ⟨0, 0⟩ 2 (by simp)⟩

/-- C3 (code bug): with an empty point list the engine computes
`0/0 = NaN`, indexes `grad[NaN]` (= `undefined`) and throws a raw
`TypeError` — it never constructs a structured `EmptyPointSet` error
(no such error exists anywhere in the code). -/
theorem empty_points_raw_type_error :
    interpolateIDW_directdraw [] demoOpts = Except.error JsError.typeError := by
  simp only [interpolateIDW_directdraw, demoOpts, Option.getD_none]
  norm_num
  simp only [cellList, show List.range 1 = [0] from rfl, List.flatMap_cons, List.flatMap_nil,
    List.map_cons, List.map_nil, List.append_nil]
  simp only [engineFold]
  simp only [computeCell, interpolValOf, cellAccum, cellAccumAux, minDistOf,
    gradientIndexOf, jsIndex, Option.map_none', Option.bind_none,
    if_neg (one_ne_zero : (1 : ℝ) ≠ 0)]
  rfl

/-- C9: the engine is a pure function — identical sample lists and
identical options give identical results (no randomness, clock, or
cross-invocation state exists in the model or the source). -/
theorem engine_deterministic (p1 p2 : List Point) (o1 o2 : Options)
    (hp : p1 = p2) (ho : o1 = o2) :
    interpolateIDW_directdraw p1 o1 = interpolateIDW_directdraw p2 o2 := by
  rw [hp, ho]

theorem engine_deterministic_witness :
    (([((0 : ℝ), (0 : ℝ), (5 : ℝ))] : List Point) = [((0 : ℝ), (0 : ℝ), (5 : ℝ))] ∧
      demoOpts = demoOpts) ∧
    interpolateIDW_directdraw [((0 : ℝ), (0 : ℝ), (5 : ℝ))] demoOpts =
      interpolateIDW_directdraw [((0 : ℝ), (0 : ℝ), (5 : ℝ))] demoOpts :=
  ⟨⟨rfl, rfl⟩, engine_deterministic _ _ _ _ rfl rfl⟩

lemma applyWrites_nil (buf : Buffer) : applyWrites buf [] = buf := rfl

lemma applyWrites_cons (buf : Buffer) (w : ℕ × Pixel) (ws : List (ℕ × Pixel)) :
    applyWrites buf (w :: ws) = applyWrites (buf.set w.1 w.2) ws := rfl

lemma applyWrites_append (buf : Buffer) (xs ys : List (ℕ × Pixel)) :
    applyWrites buf (xs ++ ys) = applyWrites (applyWrites buf xs) ys := by
  simp [applyWrites, List.foldl_append]

lemma applyWrites_length (buf : Buffer) (ws : List (ℕ × Pixel)) :
    (applyWrites buf ws).length = buf.length := by
  induction ws generalizing buf with
  | nil => rfl
  | cons w ws ih => rw [applyWrites_cons, ih, List.length_set]

lemma applyWrites_get_of_not_mem {ws : List (ℕ × Pixel)} {k : ℕ} (buf : Buffer)
    (hnot : ∀ w ∈ ws, w.1 ≠ k) :
    (applyWrites buf ws)[k]? = buf[k]? := by
  induction ws generalizing buf with
  | nil => rfl
  | cons w ws ih =>
    rw [applyWrites_cons, ih _ (fun u hu => hnot u (List.mem_cons_of_mem _ hu))]
    exact List.getElem?_set_ne (hnot w (List.mem_cons_self _ _))

lemma applyWrites_get_of_mem {ws : List (ℕ × Pixel)} {k : ℕ} {v : Pixel} (buf : Buffer)
    (hmem : (k, v) ∈ ws) (hagree : ∀ w ∈ ws, w.1 = k → w.2 = v)
    (hk : k < buf.length) :
    (applyWrites buf ws)[k]? = some v := by
  induction ws generalizing buf with
  | nil => simp at hmem
  | cons w ws ih =>
    rw [applyWrites_cons]
    by_cases hks : ∃ u ∈ ws, u.1 = k
    · obtain ⟨u, hu, hu1⟩ := hks
      have hu2 : u.2 = v := hagree u (List.mem_cons_of_mem _ hu) hu1
      have humem : (k, v) ∈ ws := by
        have : u = (k, v) := by
          rw [← hu1, ← hu2]
        rw [← this]
        exact hu
      exact ih _ humem (fun q hq hq1 => hagree q (List.mem_cons_of_mem _ hq) hq1)
        (by rw [List.length_set]; exact hk)
    · have hnot : ∀ u ∈ ws, u.1 ≠ k := fun u hu hcon => hks ⟨u, hu, hcon⟩
      rw [applyWrites_get_of_not_mem _ hnot]
      rcases List.mem_cons.mp hmem with heq | hmem'
      · rw [← heq]
        exact List.getElem?_set_eq_of_lt _ hk
      · exact absurd rfl (hnot _ hmem')

lemma engineFold_eq_collect (cc : ℕ × ℕ → Except JsError Pixel)
    (W : ℕ × ℕ → Pixel → List (ℕ × Pixel)) :
    ∀ (cells : List (ℕ × ℕ)) (buf : Buffer),
      engineFold cc W cells buf = (collectWrites cc W cells).map (applyWrites buf) := by
  intro cells
  induction cells with
  | nil => intro buf; rfl
  | cons c cs ih =>
    intro buf
    simp only [engineFold, collectWrites]
    cases hcc : cc c with
    | error er => rfl
    | ok pix =>
      dsimp only
      rw [ih (applyWrites buf (W c pix))]
      cases hcw : collectWrites cc W cs with
      | error er => rfl
      | ok ws =>
        simp only [Except.map]
        rw [applyWrites_append]

lemma collectWrites_congr {cc1 cc2 : ℕ × ℕ → Except JsError Pixel}
    (W : ℕ × ℕ → Pixel → List (ℕ × Pixel)) {cells : List (ℕ × ℕ)}
    (h : ∀ c ∈ cells, cc1 c = cc2 c) :
    collectWrites cc1 W cells = collectWrites cc2 W cells := by
  induction cells with
  | nil => rfl
  | cons c cs ih =>
    simp only [collectWrites]
    rw [h c (List.mem_cons_self _ _), ih (fun q hq => h q (List.mem_cons_of_mem _ hq))]

lemma collectWrites_ok_forall {cc W} {cells : List (ℕ × ℕ)} {ws : List (ℕ × Pixel)}
    (h : collectWrites cc W cells = .ok ws) :
    ∀ c ∈ cells, ∃ pix, cc c = .ok pix := by
  induction cells generalizing ws with
  | nil => simp
  | cons c cs ih =>
    intro q hq
    simp only [collectWrites] at h
    cases hcc : cc c with
    | error er => rw [hcc] at h; exact absurd h (by simp)
    | ok pix =>
      rw [hcc] at h
      cases hcw : collectWrites cc W cs with
      | error er => rw [hcw] at h; exact absurd h (by simp)
      | ok ws' =>
        rcases List.mem_cons.mp hq with rfl | hq'
        · exact ⟨pix, hcc⟩
        · exact ih hcw q hq'

lemma collectWrites_mem_iff {cc W} {cells : List (ℕ × ℕ)} {ws : List (ℕ × Pixel)}
    (h : collectWrites cc W cells = .ok ws) :
    ∀ x, x ∈ ws ↔ ∃ c ∈ cells, ∃ pix, cc c = .ok pix ∧ x ∈ W c pix := by
  induction cells generalizing ws with
  | nil =>
    simp only [collectWrites, Except.ok.injEq] at h
    subst h
    simp
  | cons c cs ih =>
    intro x
    simp only [collectWrites] at h
    cases hcc : cc c with
    | error er => rw [hcc] at h; exact absurd h (by simp)
    | ok pix =>
      rw [hcc] at h
      cases hcw : collectWrites cc W cs with
      | error er => rw [hcw] at h; exact absurd h (by simp)
      | ok ws' =>
        rw [hcw] at h
        simp only [Except.ok.injEq] at h
        subst h
        rw [List.mem_append]
        constructor
        · rintro (hx | hx)
          · exact ⟨c, List.mem_cons_self _ _, pix, hcc, hx⟩
          · obtain ⟨q, hq, pix', hpix', hx'⟩ := (ih hcw x).mp hx
            exact ⟨q, List.mem_cons_of_mem _ hq, pix', hpix', hx'⟩
        · rintro ⟨q, hq, pix', hpix', hx'⟩
          rcases List.mem_cons.mp hq with rfl | hq'
          · left
            rw [hcc] at hpix'
            cases hpix'
            exact hx'
          · right
            exact (ih hcw x).mpr ⟨q, hq', pix', hpix', hx'⟩

lemma blend_one (ic bg : Color) : blend ic bg 1 = (ic.1, ic.2.1, ic.2.2) := by
  simp [blend, jsRound_intCast]

/-- When the cell is within `FADE_DISTANCE` of a sample and `max ≠ 0`,
the feathered cell computation coincides with the plain one
(alpha = 1 blends to the gradient colour itself and writes alpha 255). -/
lemma computeCellPlain_eq_computeCell (points : List Point) (e : ℕ) (maxv : ℝ)
    (grad : List Color) (bg : Color) (ll : LatLng) (hmax : maxv ≠ 0)
    (hmin : ∃ m, minDistOf points ll e = some m ∧ m ≤ 100000) :
    computeCellPlain points e maxv grad ll = computeCell points e maxv grad bg ll := by
  obtain ⟨m, hm, hle⟩ := hmin
  have halpha : alphaOf (minDistOf points ll e) = 1 := by
    rw [hm]
    exact (alpha_feathering m).2.1 (by simpa [FADE_DISTANCE] using hle)
  simp only [computeCell, computeCellPlain, gradientIndexOf, if_neg hmax, halpha]
  cases h : jsIndex grad
      (((interpolValOf points ll e).map (fun x => min x maxv)).map
        (fun x => jsRound (x / maxv * 255))) with
  | none => rfl
  | some ic =>
    dsimp only
    have h255 : jsRound ((255 : ℝ) * 1) = 255 := by
      norm_num [jsRound]
    rw [blend_one, h255]

lemma cellWrites_mem_iff {w h r i j : ℕ} {pix : Pixel} {x : ℕ × Pixel} :
    x ∈ cellWrites w h r i j pix ↔
    ∃ dy, dy < r ∧ ∃ dx, dx < r ∧ j * r + dx < w ∧ i * r + dy < h ∧
      x = ((i * r + dy) * w + (j * r + dx), pix) := by
  simp only [cellWrites, List.mem_flatMap, List.mem_filterMap, List.mem_range]
  constructor
  · rintro ⟨dy, hdy, dx, hdx, hif⟩
    split at hif
    · rename_i hcond
      exact ⟨dy, hdy, dx, hdx, hcond.1, hcond.2, (Option.some_inj.mp hif).symm⟩
    · simp at hif
  · rintro ⟨dy, hdy, dx, hdx, hw, hh, rfl⟩
    exact ⟨dy, hdy, dx, hdx, by rw [if_pos ⟨hw, hh⟩]⟩

lemma cellList_mem {nY nX : ℕ} {ij : ℕ × ℕ} :
    ij ∈ cellList nY nX ↔ ij.1 < nY ∧ ij.2 < nX := by
  obtain ⟨i, j⟩ := ij
  simp only [cellList, List.mem_flatMap, List.mem_map, List.mem_range]
  constructor
  · rintro ⟨a, ha, b, hb, heq⟩
    cases heq
    exact ⟨ha, hb⟩
  · rintro ⟨hi, hj⟩
    exact ⟨i, hi, j, hj, rfl⟩

lemma pos_decompose {A B C D w : ℕ} (hB : B < w) (hD : D < w)
    (h : A * w + B = C * w + D) : A = C ∧ B = D := by
  have hw : 0 < w := lt_of_le_of_lt (Nat.zero_le B) hB
  have hA : (A * w + B) / w = A := by
    rw [Nat.mul_comm A w, Nat.mul_add_div hw, Nat.div_eq_of_lt hB, Nat.add_zero]
  have hC : (C * w + D) / w = C := by
    rw [Nat.mul_comm C w, Nat.mul_add_div hw, Nat.div_eq_of_lt hD, Nat.add_zero]
  have hAC : A = C := by rw [← hA, ← hC, h]
  refine ⟨hAC, ?_⟩
  rw [hAC] at h
  exact Nat.add_left_cancel h

lemma lt_ceil_div {y h r : ℕ} (hr : 0 < r) (hy : y < h) :
    y / r < (h + r - 1) / r := by
  have h1 : h + r - 1 = (h - 1) + r := by omega
  rw [h1, Nat.add_div_right _ hr]
  exact Nat.lt_succ_of_le (Nat.div_le_div_right (by omega))

lemma applyWrites_eq_of_cover {N : ℕ} (init1 init2 : Buffer) (ws : List (ℕ × Pixel))
    (hlen1 : init1.length = N) (hlen2 : init2.length = N)
    (hcover : ∀ k, k < N → ∃ v, (k, v) ∈ ws ∧ ∀ u ∈ ws, u.1 = k → u.2 = v) :
    applyWrites init1 ws = applyWrites init2 ws := by
  apply List.ext_getElem?
  intro n
  by_cases hn : n < N
  · obtain ⟨v, hmem, hagree⟩ := hcover n hn
    rw [applyWrites_get_of_mem _ hmem hagree (by rw [hlen1]; exact hn),
      applyWrites_get_of_mem _ hmem hagree (by rw [hlen2]; exact hn)]
  · rw [List.getElem?_eq_none (by rw [applyWrites_length, hlen1]; omega),
      List.getElem?_eq_none (by rw [applyWrites_length, hlen2]; omega)]

/-- C8: with `cellSize` supplied (≥ 1, per the data model), `exp` omitted
or positive, `max > 0`, and every cell within 100000 m of a sample (so
feathering never fires), the fine-grained engine and the direct-draw
engine return identical results — the remaining differences (prefill,
feathering, defaults) are invisible: every pixel is overwritten by its
unique containing cell with the same colour and alpha 255. -/
theorem engines_agree (points : List Point) (opts : Options) (r : ℕ)
    (hcs : opts.cellSize = some r) (hr : 1 ≤ r)
    (hexp : opts.exp = none ∨ ∃ k, opts.exp = some k ∧ 0 < k)
    (hmax : 0 < opts.maxVal.getD 1)
    (hmin : ∀ ij ∈ cellList ((opts.height + r - 1) / r) ((opts.width + r - 1) / r),
      ∃ m, minDistOf points
        (pixelToLatLng ((ij.2 * r : ℕ) + (r : ℝ) / 2) ((ij.1 * r : ℕ) + (r : ℝ) / 2)
          opts.width opts.height opts.bounds) (opts.exp.getD 2) = some m ∧ m ≤ 100000) :
    interpolateIDW points opts = interpolateIDW_directdraw points opts := by
  have he : (match opts.exp with
             | none => 2
             | some kk => if kk = 0 then 2 else kk) = opts.exp.getD 2 := by
    rcases hexp with h | ⟨k, hk, hkpos⟩
    · rw [h]
      rfl
    · rw [hk]
      simp [Nat.pos_iff_ne_zero.mp hkpos]
  simp only [interpolateIDW, interpolateIDW_directdraw, hcs, Option.getD_some, he]
  rw [engineFold_eq_collect, engineFold_eq_collect]
  rw [collectWrites_congr
    (fun ij pix => cellWrites opts.width opts.height r ij.1 ij.2 (wrapPixel pix))
    (fun ij hij => computeCellPlain_eq_computeCell points (opts.exp.getD 2)
      (opts.maxVal.getD 1) (createGradientLookup opts.gradient)
      ((createGradientLookup opts.gradient).headD (0, 0, 0)) _
      (ne_of_gt hmax) (hmin ij hij))]
  cases hcw : collectWrites
      (fun ij => computeCell points (opts.exp.getD 2) (opts.maxVal.getD 1)
        (createGradientLookup opts.gradient)
        ((createGradientLookup opts.gradient).headD (0, 0, 0))
        (pixelToLatLng ((ij.2 * r : ℕ) + (r : ℝ) / 2) ((ij.1 * r : ℕ) + (r : ℝ) / 2)
          opts.width opts.height opts.bounds))
      (fun ij pix => cellWrites opts.width opts.height r ij.1 ij.2 (wrapPixel pix))
      (cellList ((opts.height + r - 1) / r) ((opts.width + r - 1) / r)) with
  | error er => rfl
  | ok ws =>
    simp only [Except.map, Except.ok.injEq]
    refine applyWrites_eq_of_cover _ _ ws
      (List.length_replicate _ _) (List.length_replicate _ _) ?_
    intro k hk
    have hwpos : 0 < opts.width := by
      rcases Nat.eq_zero_or_pos opts.width with h0 | h0
      · rw [h0] at hk
        simp at hk
      · exact h0
    have hr0 : 0 < r := hr
    have hpy : k / opts.width < opts.height := by
      rw [Nat.div_lt_iff_lt_mul hwpos]
      calc k < opts.width * opts.height := hk
        _ = opts.height * opts.width := Nat.mul_comm _ _
    have hpx : k % opts.width < opts.width := Nat.mod_lt _ hwpos
    have hpyk : k / opts.width * opts.width + k % opts.width = k := by
      rw [Nat.mul_comm]
      exact Nat.div_add_mod k opts.width
    have hpyr : k / opts.width / r * r + k / opts.width % r = k / opts.width := by
      rw [Nat.mul_comm]
      exact Nat.div_add_mod _ r
    have hpxr : k % opts.width / r * r + k % opts.width % r = k % opts.width := by
      rw [Nat.mul_comm]
      exact Nat.div_add_mod _ r
    have hi : k / opts.width / r < (opts.height + r - 1) / r := lt_ceil_div hr0 hpy
    have hj : k % opts.width / r < (opts.width + r - 1) / r := lt_ceil_div hr0 hpx
    have hcell : ((k / opts.width / r, k % opts.width / r) : ℕ × ℕ) ∈
        cellList ((opts.height + r - 1) / r) ((opts.width + r - 1) / r) :=
      cellList_mem.mpr ⟨hi, hj⟩
    obtain ⟨pix, hpix⟩ := collectWrites_ok_forall hcw _ hcell
    refine ⟨wrapPixel pix, ?_, ?_⟩
    · rw [collectWrites_mem_iff hcw]
      refine ⟨(k / opts.width / r, k % opts.width / r), hcell, pix, hpix, ?_⟩
      rw [cellWrites_mem_iff]
      refine ⟨k / opts.width % r, Nat.mod_lt _ hr0, k % opts.width % r,
        Nat.mod_lt _ hr0, ?_, ?_, ?_⟩
      · rw [hpxr]
        exact hpx
      · rw [hpyr]
        exact hpy
      · rw [hpyr, hpxr, hpyk]
    · rintro u hu huk
      rw [collectWrites_mem_iff hcw] at hu
      obtain ⟨c', hc', pix', hpix', hu'⟩ := hu
      rw [cellWrites_mem_iff] at hu'
      obtain ⟨dy', hdy', dx', hdx', hw', hh', rfl⟩ := hu'
      dsimp only at huk
      have hkdecomp : (c'.1 * r + dy') * opts.width + (c'.2 * r + dx') =
          k / opts.width * opts.width + k % opts.width := by
        rw [hpyk]
        exact huk
      obtain ⟨hA, hB⟩ := pos_decompose hw' hpx hkdecomp
      have hArw : c'.1 * r + dy' = k / opts.width / r * r + k / opts.width % r := by
        rw [hpyr]
        exact hA
      have hBrw : c'.2 * r + dx' = k % opts.width / r * r + k % opts.width % r := by
        rw [hpxr]
        exact hB
      obtain ⟨hA1, hA2⟩ := pos_decompose hdy' (Nat.mod_lt _ hr0) hArw
      obtain ⟨hB1, hB2⟩ := pos_decompose hdx' (Nat.mod_lt _ hr0) hBrw
      have hc'eq : c' = ((k / opts.width / r, k % opts.width / r) : ℕ × ℕ) :=
        Prod.ext hA1 hB1
      rw [hc'eq, hpix] at hpix'
      cases hpix'
      rfl

lemma minDistOf_self_point (ll : LatLng) (v : ℝ) (e : ℕ) :
    minDistOf [(ll.lat, ll.lng, v)] ll e = some 0 := by
  simp only [minDistOf, cellAccum, cellAccumAux]
  rw [show (⟨(ll.lat, ll.lng, v).1, (ll.lat, ll.lng, v).2.1⟩ : LatLng) = ll from rfl,
    haversine_self]

theorem engines_agree_witness :
    (witnessOpts.cellSize = some 1 ∧ (1 : ℕ) ≤ 1 ∧
     (witnessOpts.exp = none ∨ ∃ k, witnessOpts.exp = some k ∧ 0 < k) ∧
     0 < witnessOpts.maxVal.getD 1 ∧
     (∀ ij ∈ cellList ((witnessOpts.height + 1 - 1) / 1) ((witnessOpts.width + 1 - 1) / 1),
       ∃ m, minDistOf witnessPoints
         (pixelToLatLng ((ij.2 * 1 : ℕ) + ((1 : ℕ) : ℝ) / 2) ((ij.1 * 1 : ℕ) + ((1 : ℕ) : ℝ) / 2)
           witnessOpts.width witnessOpts.height witnessOpts.bounds) (witnessOpts.exp.getD 2) =
           some m ∧ m ≤ 100000)) ∧
    interpolateIDW witnessPoints witnessOpts =
      interpolateIDW_directdraw witnessPoints witnessOpts := by
  have h1 : witnessOpts.cellSize = some 1 := rfl
  have h2 : (1 : ℕ) ≤ 1 := le_refl 1
  have h3 : witnessOpts.exp = none ∨ ∃ k, witnessOpts.exp = some k ∧ 0 < k :=
    Or.inr ⟨2, rfl, by norm_num⟩
  have h4 : 0 < witnessOpts.maxVal.getD 1 := by norm_num [witnessOpts]
  have h5 : ∀ ij ∈ cellList ((witnessOpts.height + 1 - 1) / 1)
      ((witnessOpts.width + 1 - 1) / 1),
      ∃ m, minDistOf witnessPoints
        (pixelToLatLng ((ij.2 * 1 : ℕ) + ((1 : ℕ) : ℝ) / 2) ((ij.1 * 1 : ℕ) + ((1 : ℕ) : ℝ) / 2)
          witnessOpts.width witnessOpts.height witnessOpts.bounds) (witnessOpts.exp.getD 2) =
          some m ∧ m ≤ 100000 := by
    intro ij hij
    rw [cellList_mem] at hij
    have hij0 : ij = ((0 : ℕ), (0 : ℕ)) := by
      obtain ⟨i, j⟩ := ij
      have : (witnessOpts.height + 1 - 1) / 1 = 1 := rfl
      have : (witnessOpts.width + 1 - 1) / 1 = 1 := rfl
      simp only [witnessOpts] at hij
      norm_num at hij
      simp [hij.1, hij.2]
    subst hij0
    exact ⟨0, minDistOf_self_point witnessLL 5 2, by norm_num⟩
  exact ⟨⟨h1, h2, h3, h4, h5⟩,
    engines_agree witnessPoints witnessOpts 1 h1 h2 h3 h4 h5⟩

end Idw
